import Mathlib

/-!
Verification of the car comparison statistics engine.

This file gives a shallow embedding, in Lean 4, of the comparison logic of
the repository:

* `compare_car_listings` embeds the statistics computation of the
  endpoint handler `compare_car_listings` in `src/app/main.py` (lines
  756 to 807): count, min/max/average price, average price per mile over the
  listings with positive mileage, and the best deal chosen by Python
  `sorted(listings, key=lambda l: (price, mileage or inf))[0]`.
  Python `sorted` is a stable sort; it is embedded as a stable insertion
  sort (`sortByKey`) over the same lexicographic key.
* `compute_comparison_stats` embeds the helper of the same name in
  `src/tests/integration/test_car_compare.py` (lines 70 to 117), whose
  best deal is Python `min(listings_with_mileage, key=ratio)` (the first
  listing attaining the minimal price-per-mile ratio), and which returns
  None for the best deal when no listing has positive mileage.
* `validate_price`, `validate_mileage`, `validate_price_update`,
  `validate_mileage_update` embed the pydantic field validators of
  `src/app/schemas/listing.py` (ListingBase and ListingUpdate).

Python floats are modelled as rationals; Python `round(x, 2)` is modelled
as round-half-to-even at two decimal places (`round2`).  Python `None` is
modelled by `Option`.
-/

attribute [local semireducible] Rat.mul Rat.add Rat.inv Rat.sub

/-- A marketplace listing, restricted to the fields the comparison engine
reads: `id` (opaque identifier, modelled as a natural number), `price`
(positive currency amount, modelled as a rational) and `mileage`
(optional non-negative integer; `none` means no mileage data). -/
structure Listing where
  id : ℕ
  price : ℚ
  mileage : Option ℕ
deriving DecidableEq

/-- The result record of the comparison engine (the `CarCompareStats`
response model of the source). -/
structure CarCompareStats where
  count : ℕ
  min_price : Option ℚ
  max_price : Option ℚ
  avg_price : Option ℚ
  avg_price_per_mile : Option ℚ
  best_deal_listing_id : Option ℕ
deriving DecidableEq

/-- Floor of a rational, computed as floor division of numerator by
denominator (kept executable so concrete inputs evaluate by `decide`). -/
def ratFloor (q : ℚ) : ℤ := q.num.fdiv (q.den : ℤ)

/-- Round a rational to the nearest integer, ties to even: the model of
Python `round(x)` (banker's rounding). -/
def roundHalfEven (q : ℚ) : ℤ :=
  if q - (ratFloor q : ℚ) < 1 / 2 then ratFloor q
  else if (1 / 2 : ℚ) < q - (ratFloor q : ℚ) then ratFloor q + 1
  else if ratFloor q % 2 = 0 then ratFloor q else ratFloor q + 1

/-- Round to 2 decimal places, the model of Python `round(x, 2)`. -/
def round2 (q : ℚ) : ℚ := ((roundHalfEven (100 * q) : ℤ) : ℚ) / 100

/-- The qualification test used by both the endpoint
(`listing.mileage is not None and listing.mileage > 0`) and the test
helper (`l.mileage and l.mileage > 0`): mileage present and strictly
positive. -/
def qualifies (l : Listing) : Bool :=
  match l.mileage with
  | none => false
  | some m => decide (0 < m)

/-- The qualification condition as the specification words it: the
mileage is present and strictly greater than 0. -/
def specQualifies (l : Listing) : Prop :=
  ∃ m, l.mileage = some m ∧ 0 < m

/-- Per-listing price-per-mile ratio `float(l.price) / l.mileage`.  The
source only evaluates it on qualifying listings, where the mileage is
`some m` with `0 < m`; the `getD 0` default is never reached there. -/
def pricePerMile (l : Listing) : ℚ := l.price / ((l.mileage.getD 0 : ℕ) : ℚ)

/-- Mileage component of the endpoint sort key:
`listing.mileage if listing.mileage is not None else float(\x27inf\x27)`,
with infinity modelled as the top element. -/
def mileageKey (m : Option ℕ) : WithTop ℕ :=
  match m with
  | none => ⊤
  | some n => (n : WithTop ℕ)

/-- The endpoint sort key `(float(listing.price), mileage-or-infinity)`,
compared lexicographically as Python compares tuples. -/
def sortKey (l : Listing) : ℚ ×ₗ WithTop ℕ := toLex (l.price, mileageKey l.mileage)

section KeySort

variable {α : Type} {K : Type} [LinearOrder K]

/-- Insert an element into a list so that it lands after every already
present element whose key is not greater: the insertion step of a stable
insertion sort (equal keys keep their existing order, new element last). -/
def insertByKey (k : α → K) (l : α) : List α → List α
  | [] => [l]
  | x :: xs => if k l < k x then l :: x :: xs else x :: insertByKey k l xs

/-- Stable sort by key, the model of Python `sorted(ls, key=k)`: elements
are inserted left to right, so elements with equal keys keep their input
order. -/
def sortByKey (k : α → K) (ls : List α) : List α :=
  ls.foldl (fun acc l => insertByKey k l acc) []

/-- First minimum of `x :: xs` by key: the model of Python
`min(x :: xs, key=k)`, which keeps the current candidate unless a later
element is strictly smaller. -/
def foldMin (k : α → K) (x : α) (xs : List α) : α :=
  xs.foldl (fun a l => if k l < k a then l else a) x

end KeySort

/-- The statistics computation of the endpoint handler
`compare_car_listings` (src/app/main.py lines 756 to 807), after the
listings have been fetched: count, price aggregates, average price per
mile over the qualifying listings, and best deal =
`sorted(listings, key=(price, mileage-or-inf))[0]`.  The final
`round(avg_price_per_mile, 2) if avg_price_per_mile else None` tests
Python truthiness, so a zero average is also mapped to `None`; the
embedding keeps that test.  On a non-empty input the source indexes
`[0]` of a non-empty sorted list, embedded as `List.head?`. -/
def compare_car_listings (listings : List Listing) : CarCompareStats :=
  match listings with
  | [] =>
    { count := 0, min_price := none, max_price := none, avg_price := none,
      avg_price_per_mile := none, best_deal_listing_id := none }
  | l0 :: rest =>
    { count := (l0 :: rest).length,
      min_price := some (round2 (rest.foldl (fun a l => min a l.price) l0.price)),
      max_price := some (round2 (rest.foldl (fun a l => max a l.price) l0.price)),
      avg_price :=
        some (round2 (((l0 :: rest).map (fun l => l.price)).sum / (((l0 :: rest).length : ℕ) : ℚ))),
      avg_price_per_mile :=
        match (if ((l0 :: rest).filter qualifies).isEmpty then none
               else some ((((l0 :: rest).filter qualifies).map pricePerMile).sum /
                 ((((l0 :: rest).filter qualifies).length : ℕ) : ℚ))) with
        | none => none
        | some v => if v = 0 then none else some (round2 v),
      best_deal_listing_id := (sortByKey sortKey (l0 :: rest)).head?.map (fun l => l.id) }

/-- The test helper `compute_comparison_stats`
(src/tests/integration/test_car_compare.py lines 70 to 117).  It computes
the same count and price aggregates, but its best deal is
`min(listings_with_mileage, key=price-per-mile)` and it returns `None`
for the best deal when no listing qualifies.  The same truthiness test
guards the rounding of the average price per mile. -/
def compute_comparison_stats (listings : List Listing) : CarCompareStats :=
  match listings with
  | [] =>
    { count := 0, min_price := none, max_price := none, avg_price := none,
      avg_price_per_mile := none, best_deal_listing_id := none }
  | l0 :: rest =>
    match (l0 :: rest).filter qualifies with
    | [] =>
      { count := (l0 :: rest).length,
        min_price := some (round2 (rest.foldl (fun a l => min a l.price) l0.price)),
        max_price := some (round2 (rest.foldl (fun a l => max a l.price) l0.price)),
        avg_price :=
          some (round2 (((l0 :: rest).map (fun l => l.price)).sum / (((l0 :: rest).length : ℕ) : ℚ))),
        avg_price_per_mile := none,
        best_deal_listing_id := none }
    | q0 :: qrest =>
      { count := (l0 :: rest).length,
        min_price := some (round2 (rest.foldl (fun a l => min a l.price) l0.price)),
        max_price := some (round2 (rest.foldl (fun a l => max a l.price) l0.price)),
        avg_price :=
          some (round2 (((l0 :: rest).map (fun l => l.price)).sum / (((l0 :: rest).length : ℕ) : ℚ))),
        avg_price_per_mile :=
          if (((q0 :: qrest).map pricePerMile).sum / (((q0 :: qrest).length : ℕ) : ℚ)) = 0 then none
          else some (round2 (((q0 :: qrest).map pricePerMile).sum / (((q0 :: qrest).length : ℕ) : ℚ))),
        best_deal_listing_id := some (foldMin pricePerMile q0 qrest).id }

/-- The endpoint computation read as explicit state passing over the
listing store it was given: the source only reads the listing fields and
builds new local lists (list comprehensions, `sorted` returns a fresh
list), it performs no assignment to any listing and no create or delete,
so the store component is returned unchanged alongside the result. -/
def compare_car_listings_with_store (store : List Listing) :
    CarCompareStats × List Listing :=
  (compare_car_listings store, store)

/-- `ListingBase.validate_price` (src/app/schemas/listing.py lines 72 to
95): reject a non-positive price, reject a price above 10,000,000,
otherwise return the price rounded to 2 decimal places. -/
def validate_price (v : ℚ) : Except String ℚ :=
  if v ≤ 0 then Except.error "Price must be greater than 0"
  else if v > 10000000 then Except.error "Price cannot exceed $10,000,000"
  else Except.ok (round2 v)

/-- `ListingBase.validate_mileage` (src/app/schemas/listing.py lines 97
to 122): pass `None` through, reject a negative mileage, reject a
mileage above 1,000,000, otherwise return it unchanged. -/
def validate_mileage (v : Option ℤ) : Except String (Option ℤ) :=
  match v with
  | none => Except.ok none
  | some m =>
    if m < 0 then Except.error "Mileage cannot be negative"
    else if m > 1000000 then Except.error "Mileage cannot exceed 1,000,000 miles"
    else Except.ok (some m)

/-- `ListingUpdate.validate_price` (src/app/schemas/listing.py lines 247
to 269): like the base validator but `None` (field absent from the
partial update) passes through. -/
def validate_price_update (v : Option ℚ) : Except String (Option ℚ) :=
  match v with
  | none => Except.ok none
  | some p =>
    if p ≤ 0 then Except.error "Price must be greater than 0"
    else if p > 10000000 then Except.error "Price cannot exceed $10,000,000"
    else Except.ok (some (round2 p))

/-- `ListingUpdate.validate_mileage` (src/app/schemas/listing.py): same
checks as the base mileage validator, `None` passes through. -/
def validate_mileage_update (v : Option ℤ) : Except String (Option ℤ) :=
  match v with
  | none => Except.ok none
  | some m =>
    if m < 0 then Except.error "Mileage cannot be negative"
    else if m > 1000000 then Except.error "Mileage cannot exceed 1,000,000 miles"
    else Except.ok (some m)

/-- Replace an exact mileage of 0 by no mileage data: the transformation
under which, per the specification, the engine must be invariant in its
price-per-mile statistics. -/
def zeroMileageToNone (l : Listing) : Listing :=
  if l.mileage = some 0 then { l with mileage := none } else l

section KeySortLemmas

variable {α : Type} {K : Type} [LinearOrder K]

/-- Head of an insertion: the new element wins exactly when its key is
strictly smaller than the current head's key. -/
theorem head?_insertByKey (k : α → K) (l : α) (xs : List α) :
    (insertByKey k l xs).head? =
      some (xs.head?.elim l (fun x => if k l < k x then l else x)) := by
  cases xs with
  | nil => rfl
  | cons x xs =>
    by_cases h : k l < k x
    · simp [insertByKey, h]
    · simp [insertByKey, h]

/-- Head of a left fold of insertions, tracked as a fold on the optional
head alone. -/
theorem head?_foldl_insertByKey (k : α → K) :
    ∀ (p : List α) (acc : List α),
      (p.foldl (fun a l => insertByKey k l a) acc).head? =
        p.foldl (fun o l => some (o.elim l (fun x => if k l < k x then l else x))) acc.head? := by
  intro p
  induction p with
  | nil => intro acc; rfl
  | cons l p ih =>
    intro acc
    have h1 : ((l :: p).foldl (fun a l => insertByKey k l a) acc) =
        p.foldl (fun a l => insertByKey k l a) (insertByKey k l acc) := rfl
    rw [h1, ih, head?_insertByKey]
    rfl

/-- A fold on optional heads that starts at `some x` is the corresponding
plain first-minimum fold. -/
theorem foldl_opt_some (k : α → K) :
    ∀ (xs : List α) (x : α),
      xs.foldl (fun o l => some (o.elim l (fun a => if k l < k a then l else a))) (some x) =
        some (foldMin k x xs) := by
  intro xs
  induction xs with
  | nil => intro x; rfl
  | cons l xs ih =>
    intro x
    have h1 : (l :: xs).foldl
        (fun o l => some (o.elim l (fun a => if k l < k a then l else a))) (some x) =
        xs.foldl (fun o l => some (o.elim l (fun a => if k l < k a then l else a)))
          (some (if k l < k x then l else x)) := rfl
    rw [h1, ih]
    rfl

/-- The head of the stable sort of `x :: xs` is the first element of
`x :: xs` attaining the minimal key. -/
theorem head?_sortByKey (k : α → K) (x : α) (xs : List α) :
    (sortByKey k (x :: xs)).head? = some (foldMin k x xs) := by
  have h1 : sortByKey k (x :: xs) =
      xs.foldl (fun a l => insertByKey k l a) [x] := rfl
  rw [h1, head?_foldl_insertByKey]
  exact foldl_opt_some k xs x

/-- Decomposition of a first-minimum fold: the input splits around the
chosen element, everything before it has strictly greater key (so the
chosen element is the earliest one attaining the minimum) and everything
after it has greater or equal key. -/
theorem foldMin_decomp (k : α → K) :
    ∀ (xs : List α) (x : α), ∃ pre post,
      x :: xs = pre ++ foldMin k x xs :: post ∧
      (∀ y ∈ pre, k (foldMin k x xs) < k y) ∧
      (∀ y ∈ post, k (foldMin k x xs) ≤ k y) ∧
      k (foldMin k x xs) ≤ k x := by
  intro xs
  induction xs with
  | nil =>
    intro x
    exact ⟨[], [], rfl, by simp, by simp, le_refl _⟩
  | cons l xs ih =>
    intro x
    have hstep : foldMin k x (l :: xs) = foldMin k (if k l < k x then l else x) xs := rfl
    by_cases hlx : k l < k x
    · -- the new head is beaten immediately; recurse from l
      obtain ⟨pre, post, hsplit, hpre, hpost, hle⟩ := ih l
      have hres : foldMin k x (l :: xs) = foldMin k l xs := by rw [hstep, if_pos hlx]
      refine ⟨x :: pre, post, ?_, ?_, ?_, ?_⟩
      · rw [hres]; simpa using hsplit
      · intro y hy
        rcases List.mem_cons.mp hy with hyx | hyp
        · subst hyx; rw [hres]; exact lt_of_le_of_lt hle hlx
        · rw [hres]; exact hpre y hyp
      · intro y hy; rw [hres]; exact hpost y hy
      · rw [hres]; exact le_of_lt (lt_of_le_of_lt hle hlx)
    · -- x survives the first comparison; recurse from x
      obtain ⟨pre, post, hsplit, hpre, hpost, hle⟩ := ih x
      have hres : foldMin k x (l :: xs) = foldMin k x xs := by rw [hstep, if_neg hlx]
      have hxl : k x ≤ k l := le_of_not_lt hlx
      cases pre with
      | nil =>
        -- the recursive minimum is x itself
        have hx2 : x = foldMin k x xs ∧ xs = post := by simpa using hsplit
        have hx : x = foldMin k x xs := hx2.1
        have hpost2 : xs = post := hx2.2
        refine ⟨[], l :: xs, ?_, by simp, ?_, ?_⟩
        · rw [hres, ← hx]; simp
        · intro y hy
          rcases List.mem_cons.mp hy with hyl | hyx
          · subst hyl; rw [hres, ← hx]; exact hxl
          · rw [hres]; rw [hpost2] at hyx; exact hpost y hyx
        · rw [hres]; exact hle
      | cons p pre2 =>
        have hhead : x = p ∧ xs = pre2 ++ foldMin k x xs :: post := by
          have := hsplit
          simp only [List.cons_append] at this
          exact ⟨by injection this, by injection this⟩
        obtain ⟨hxp, hxs⟩ := hhead
        have hxmem : x ∈ p :: pre2 := by rw [hxp]; exact List.mem_cons_self _ _
        refine ⟨x :: l :: pre2, post, ?_, ?_, ?_, ?_⟩
        · rw [hres]; simp only [List.cons_append]; rw [← hxs]
        · intro y hy
          rcases List.mem_cons.mp hy with hyx | hy2
          · rw [hyx, hres]; exact hpre x hxmem
          rcases List.mem_cons.mp hy2 with hyl | hyp
          · rw [hyl, hres]
            exact lt_of_lt_of_le (hpre x hxmem) hxl
          · rw [hres]; exact hpre y (List.mem_cons_of_mem _ hyp)
        · intro y hy; rw [hres]; exact hpost y hy
        · rw [hres]; exact le_of_lt (hpre x hxmem)

/-- The chosen first minimum belongs to the input and its key is minimal. -/
theorem foldMin_spec (k : α → K) (x : α) (xs : List α) :
    foldMin k x xs ∈ x :: xs ∧ ∀ y ∈ x :: xs, k (foldMin k x xs) ≤ k y := by
  obtain ⟨pre, post, hsplit, hpre, hpost, _⟩ := foldMin_decomp k xs x
  constructor
  · rw [hsplit]
    exact List.mem_append.mpr (Or.inr (List.mem_cons_self _ _))
  · intro y hy
    rw [hsplit] at hy
    rcases List.mem_append.mp hy with hy1 | hy2
    · exact le_of_lt (hpre y hy1)
    · rcases List.mem_cons.mp hy2 with hy3 | hy4
      · rw [hy3]
      · exact hpost y hy4

end KeySortLemmas


/-- The running minimum of prices (Python `min(prices)` as the source
folds it) is one of the accumulated values and a lower bound for all of
them. -/
theorem foldl_min_price_spec :
    ∀ (xs : List Listing) (a : ℚ),
      xs.foldl (fun b l => min b l.price) a ∈ a :: xs.map (fun l => l.price) ∧
      ∀ p ∈ a :: xs.map (fun l => l.price), xs.foldl (fun b l => min b l.price) a ≤ p := by
  intro xs
  induction xs with
  | nil =>
    intro a
    refine ⟨List.mem_cons_self _ _, ?_⟩
    intro p hp
    rcases List.mem_cons.mp hp with h | h
    · rw [h]; exact le_rfl
    · simp at h
  | cons x xs ih =>
    intro a
    have h1 : (x :: xs).foldl (fun b l => min b l.price) a =
        xs.foldl (fun b l => min b l.price) (min a x.price) := rfl
    obtain ⟨hmem, hbd⟩ := ih (min a x.price)
    rw [List.map_cons]
    constructor
    · rw [h1]
      rcases List.mem_cons.mp hmem with he | hm
      · rcases min_choice a x.price with hc | hc
        · rw [he, hc]; exact List.mem_cons_self _ _
        · rw [he, hc]
          exact List.mem_cons_of_mem _ (List.mem_cons_self _ _)
      · exact List.mem_cons_of_mem _ (List.mem_cons_of_mem _ hm)
    · intro p hp
      have hself : xs.foldl (fun b l => min b l.price) (min a x.price) ≤ min a x.price :=
        hbd _ (List.mem_cons_self _ _)
      rcases List.mem_cons.mp hp with h | h2
      · rw [h1, h]; exact le_trans hself (min_le_left _ _)
      rcases List.mem_cons.mp h2 with h | h3
      · rw [h1, h]; exact le_trans hself (min_le_right _ _)
      · rw [h1]; exact hbd _ (List.mem_cons_of_mem _ h3)

/-- The running maximum of prices is one of the accumulated values and an
upper bound for all of them. -/
theorem foldl_max_price_spec :
    ∀ (xs : List Listing) (a : ℚ),
      xs.foldl (fun b l => max b l.price) a ∈ a :: xs.map (fun l => l.price) ∧
      ∀ p ∈ a :: xs.map (fun l => l.price), p ≤ xs.foldl (fun b l => max b l.price) a := by
  intro xs
  induction xs with
  | nil =>
    intro a
    refine ⟨List.mem_cons_self _ _, ?_⟩
    intro p hp
    rcases List.mem_cons.mp hp with h | h
    · rw [h]; exact le_rfl
    · simp at h
  | cons x xs ih =>
    intro a
    have h1 : (x :: xs).foldl (fun b l => max b l.price) a =
        xs.foldl (fun b l => max b l.price) (max a x.price) := rfl
    obtain ⟨hmem, hbd⟩ := ih (max a x.price)
    rw [List.map_cons]
    constructor
    · rw [h1]
      rcases List.mem_cons.mp hmem with he | hm
      · rcases max_choice a x.price with hc | hc
        · rw [he, hc]; exact List.mem_cons_self _ _
        · rw [he, hc]
          exact List.mem_cons_of_mem _ (List.mem_cons_self _ _)
      · exact List.mem_cons_of_mem _ (List.mem_cons_of_mem _ hm)
    · intro p hp
      have hself : max a x.price ≤ xs.foldl (fun b l => max b l.price) (max a x.price) :=
        hbd _ (List.mem_cons_self _ _)
      rcases List.mem_cons.mp hp with h | h2
      · rw [h1, h]; exact le_trans (le_max_left _ _) hself
      rcases List.mem_cons.mp h2 with h | h3
      · rw [h1, h]; exact le_trans (le_max_right _ _) hself
      · rw [h1]; exact hbd _ (List.mem_cons_of_mem _ h3)

/-- The qualification test of the source agrees with the wording of the
specification. -/
theorem qualifies_iff (l : Listing) : qualifies l = true ↔ specQualifies l := by
  unfold qualifies specQualifies
  cases hm : l.mileage with
  | none => simp
  | some m => simp

/-- A listing whose mileage is literally 0 does not qualify, just like a
listing without mileage data. -/
theorem qualifies_zero (i : ℕ) (p : ℚ) :
    qualifies ⟨i, p, some 0⟩ = false ∧ qualifies ⟨i, p, none⟩ = false := ⟨rfl, rfl⟩

/-- Nulling out a zero mileage does not change the price. -/
theorem price_zeroMileageToNone (l : Listing) :
    (zeroMileageToNone l).price = l.price := by
  unfold zeroMileageToNone
  split <;> rfl

/-- Nulling out a zero mileage does not change qualification. -/
theorem qualifies_zeroMileageToNone (l : Listing) :
    qualifies (zeroMileageToNone l) = qualifies l := by
  unfold zeroMileageToNone
  by_cases h : l.mileage = some 0
  · rw [if_pos h]
    unfold qualifies
    rw [h]
    rfl
  · rw [if_neg h]

/-- A qualifying listing is untouched by `zeroMileageToNone`. -/
theorem zeroMileageToNone_of_qualifies (l : Listing) (h : qualifies l = true) :
    zeroMileageToNone l = l := by
  obtain ⟨m, hm, hpos⟩ := (qualifies_iff l).mp h
  unfold zeroMileageToNone
  rw [if_neg]
  rw [hm]
  intro hc
  injection hc with hc2
  rw [hc2] at hpos
  exact lt_irrefl 0 hpos

/-- Nulling out zero mileages leaves the list of qualifying listings
unchanged. -/
theorem filter_qualifies_map_zeroMileageToNone :
    ∀ ls : List Listing,
      (ls.map zeroMileageToNone).filter qualifies = ls.filter qualifies := by
  intro ls
  induction ls with
  | nil => rfl
  | cons l ls ih =>
    rw [List.map_cons, List.filter_cons, List.filter_cons,
      qualifies_zeroMileageToNone]
    cases h : qualifies l with
    | true => simp [zeroMileageToNone_of_qualifies l h, ih]
    | false => simp [ih]

/-- The test helper computes the same result after zero mileages are
nulled out: prices are untouched and the qualifying sublist is
unchanged. -/
theorem compute_comparison_stats_map_zeroMileageToNone (ls : List Listing) :
    compute_comparison_stats (ls.map zeroMileageToNone) = compute_comparison_stats ls := by
  cases ls with
  | nil => rfl
  | cons l0 rest =>
    have hf := filter_qualifies_map_zeroMileageToNone (l0 :: rest)
    rw [List.map_cons] at hf
    cases hq : (l0 :: rest).filter qualifies with
    | nil =>
      have hf2 : (zeroMileageToNone l0 :: rest.map zeroMileageToNone).filter qualifies = [] := by
        rw [hf, hq]
      rw [List.map_cons]
      simp only [compute_comparison_stats, hf2, hq]
      simp [List.foldl_map, price_zeroMileageToNone, List.map_map, Function.comp_def]
    | cons q0 qrest =>
      have hf2 : (zeroMileageToNone l0 :: rest.map zeroMileageToNone).filter qualifies =
          q0 :: qrest := by
        rw [hf, hq]
      rw [List.map_cons]
      simp only [compute_comparison_stats, hf2, hq]
      simp [List.foldl_map, price_zeroMileageToNone, List.map_map, Function.comp_def]

/-- The endpoint computes the same average price per mile after zero
mileages are nulled out. -/
theorem compare_appm_map_zeroMileageToNone (ls : List Listing) :
    (compare_car_listings (ls.map zeroMileageToNone)).avg_price_per_mile =
      (compare_car_listings ls).avg_price_per_mile := by
  cases ls with
  | nil => rfl
  | cons l0 rest =>
    have hf := filter_qualifies_map_zeroMileageToNone (l0 :: rest)
    rw [List.map_cons] at hf
    rw [List.map_cons]
    simp only [compare_car_listings]
    rw [hf]

/-- The endpoint returns the first minimum of the sort key as the best
deal of a non-empty input. -/
theorem compare_best_cons (l0 : Listing) (rest : List Listing) :
    (compare_car_listings (l0 :: rest)).best_deal_listing_id =
      some (foldMin sortKey l0 rest).id := by
  simp only [compare_car_listings]
  rw [head?_sortByKey]
  rfl

/-- A minimal sort key implies a minimal price. -/
theorem price_le_of_sortKey_le (a b : Listing) (h : sortKey a ≤ sortKey b) :
    a.price ≤ b.price := by
  unfold sortKey at h
  rcases (Prod.Lex.le_iff _ _).mp h with h1 | h2
  · exact le_of_lt h1
  · exact le_of_eq h2.1

/-- Among equal prices, a listing with mileage data has a strictly
smaller sort key than one without: so a minimal-key listing cannot lack
mileage data while an equal-priced competitor has it. -/
theorem mileage_of_sortKey_le (a b : Listing) (h : sortKey a ≤ sortKey b)
    (hp : b.price = a.price) (hm : b.mileage ≠ none) : a.mileage ≠ none := by
  intro ha
  unfold sortKey at h
  rcases (Prod.Lex.le_iff _ _).mp h with h1 | h2
  · rw [hp] at h1; exact lt_irrefl _ h1
  · cases hb : b.mileage with
    | none => exact hm hb
    | some m =>
      have h3 : mileageKey a.mileage ≤ mileageKey b.mileage := h2.2
      rw [ha, hb] at h3
      have h4 : mileageKey (some m) = ⊤ := WithTop.top_le_iff.mp h3
      exact WithTop.coe_ne_top h4

/-- Positivity of the average of the price-per-mile ratios over a
non-empty qualifying sublist with positive prices. -/
theorem appm_pos (ls : List Listing) (hpos : ∀ l ∈ ls, 0 < l.price)
    (q0 : Listing) (qrest : List Listing)
    (hq : ls.filter qualifies = q0 :: qrest) :
    0 < ((q0 :: qrest).map pricePerMile).sum / (((q0 :: qrest).length : ℕ) : ℚ) := by
  apply div_pos
  · apply List.sum_pos
    · intro x hx
      obtain ⟨l, hl, hxl⟩ := List.mem_map.mp hx
      have hlin : l ∈ ls.filter qualifies := hq ▸ hl
      have hmem := List.mem_of_mem_filter hlin
      have hqual : qualifies l = true := List.of_mem_filter hlin
      obtain ⟨m, hm, hmpos⟩ := (qualifies_iff l).mp hqual
      rw [← hxl]
      unfold pricePerMile
      rw [hm]
      apply div_pos (hpos l hmem)
      exact_mod_cast hmpos
    · simp
  · exact_mod_cast Nat.succ_pos qrest.length

/-- Field extraction for a non-empty input: the count. -/
theorem compare_count_cons (l0 : Listing) (rest : List Listing) :
    (compare_car_listings (l0 :: rest)).count = (l0 :: rest).length := rfl

/-- Field extraction for a non-empty input: the minimum price. -/
theorem compare_min_price_cons (l0 : Listing) (rest : List Listing) :
    (compare_car_listings (l0 :: rest)).min_price =
      some (round2 (rest.foldl (fun a l => min a l.price) l0.price)) := rfl

/-- Field extraction for a non-empty input: the maximum price. -/
theorem compare_max_price_cons (l0 : Listing) (rest : List Listing) :
    (compare_car_listings (l0 :: rest)).max_price =
      some (round2 (rest.foldl (fun a l => max a l.price) l0.price)) := rfl

/-- Field extraction for a non-empty input: the average price. -/
theorem compare_avg_price_cons (l0 : Listing) (rest : List Listing) :
    (compare_car_listings (l0 :: rest)).avg_price =
      some (round2 (((l0 :: rest).map (fun l => l.price)).sum /
        (((l0 :: rest).length : ℕ) : ℚ))) := rfl

/-- Claim C5: compare applied to the empty list returns count = 0,
min_price, max_price, avg_price and avg_price_per_mile all null, and
best_deal_listing_id null. -/
theorem claim_c5 :
    (compare_car_listings []).count = 0 ∧
    (compare_car_listings []).min_price = none ∧
    (compare_car_listings []).max_price = none ∧
    (compare_car_listings []).avg_price = none ∧
    (compare_car_listings []).avg_price_per_mile = none ∧
    (compare_car_listings []).best_deal_listing_id = none :=
  ⟨rfl, rfl, rfl, rfl, rfl, rfl⟩

/-- Claim C7: the comparison is deterministic: two invocations on the
same input list (both for the endpoint computation and for the test
helper) yield identical results in every field; the embedding is a pure
function of the input list, there is no hidden state. -/
theorem claim_c7 (ls1 ls2 : List Listing) (h : ls1 = ls2) :
    compare_car_listings ls1 = compare_car_listings ls2 ∧
    compute_comparison_stats ls1 = compute_comparison_stats ls2 := by
  rw [h]
  exact ⟨rfl, rfl⟩

/-- Claim C7 witness at a concrete input. -/
theorem claim_c7_witness :
    compare_car_listings [⟨1, 25000, some 50000⟩] =
      compare_car_listings [⟨1, 25000, some 50000⟩] ∧
    compute_comparison_stats [⟨1, 25000, some 50000⟩] =
      compute_comparison_stats [⟨1, 25000, some 50000⟩] :=
  claim_c7 _ _ rfl

/-- Claim C8: the engine has no side effects: read as explicit state
passing over the listing store, the call returns the store unchanged (the
source never mutates, creates or destroys listings) together with the
pure result. -/
theorem claim_c8 (store : List Listing) :
    (compare_car_listings_with_store store).2 = store ∧
    (compare_car_listings_with_store store).1 = compare_car_listings store :=
  ⟨rfl, rfl⟩

/-- Claim C3: an input on which the two best-deal rules of the repository
disagree: the endpoint (lowest price, tie-break lowest mileage) picks
listing 1, the test helper (lowest price-per-mile ratio) picks
listing 2. -/
theorem claim_c3 :
    (compare_car_listings [⟨1, 100, some 10⟩, ⟨2, 200, some 100⟩]).best_deal_listing_id =
      some 1 ∧
    (compute_comparison_stats [⟨1, 100, some 10⟩, ⟨2, 200, some 100⟩]).best_deal_listing_id =
      some 2 ∧
    (compare_car_listings [⟨1, 100, some 10⟩, ⟨2, 200, some 100⟩]).best_deal_listing_id ≠
      (compute_comparison_stats [⟨1, 100, some 10⟩, ⟨2, 200, some 100⟩]).best_deal_listing_id := by
  refine ⟨by decide, by decide, by decide⟩

/-- Claim C1 counterexample: on a non-empty input in which no listing has
positive mileage, the endpoint does not return null for the best deal (it
returns the lowest-price listing), contradicting the claim as stated. -/
theorem claim_c1_counterexample :
    (([⟨1, 100, none⟩] : List Listing).filter qualifies = []) ∧
    (compare_car_listings [⟨1, 100, none⟩]).best_deal_listing_id = some 1 ∧
    (compare_car_listings [⟨1, 100, none⟩]).best_deal_listing_id ≠ none := by
  refine ⟨by decide, by decide, by decide⟩

/-- Claim C1 (amended): the minimum-ratio rule holds for the test helper
compute_comparison_stats, not for the endpoint: the helper returns null
when no listing has positive mileage, and otherwise the id of a
qualifying listing whose price/mileage ratio is minimal among qualifying
listings. -/
theorem claim_c1_amended (ls1 ls2 : List Listing) (q0 : Listing) (qrest : List Listing)
    (h1 : ls1.filter qualifies = [])
    (h2 : ls2.filter qualifies = q0 :: qrest) :
    (compute_comparison_stats ls1).best_deal_listing_id = none ∧
    ∃ r, (compute_comparison_stats ls2).best_deal_listing_id = some r.id ∧
      r ∈ ls2.filter qualifies ∧
      ∀ y ∈ ls2.filter qualifies, pricePerMile r ≤ pricePerMile y := by
  constructor
  · cases ls1 with
    | nil => rfl
    | cons l0 rest =>
      simp only [compute_comparison_stats, h1]
  · cases ls2 with
    | nil =>
      rw [List.filter_nil] at h2
      cases h2
    | cons l0 rest =>
      simp only [compute_comparison_stats, h2]
      obtain ⟨hmem, hmin⟩ := foldMin_spec pricePerMile q0 qrest
      refine ⟨foldMin pricePerMile q0 qrest, rfl, ?_, ?_⟩
      · exact hmem
      · exact hmin

/-- Claim C1 witness at concrete inputs: a list with no qualifying
listing and a two-listing list in which the second listing has the
smaller ratio. -/
theorem claim_c1_witness :
    (compute_comparison_stats [(⟨1, 100, none⟩ : Listing)]).best_deal_listing_id = none ∧
    ∃ r, (compute_comparison_stats
        [(⟨1, 100, some 10⟩ : Listing), ⟨2, 200, some 100⟩]).best_deal_listing_id = some r.id ∧
      r ∈ ([(⟨1, 100, some 10⟩ : Listing), ⟨2, 200, some 100⟩]).filter qualifies ∧
      ∀ y ∈ ([(⟨1, 100, some 10⟩ : Listing), ⟨2, 200, some 100⟩]).filter qualifies,
        pricePerMile r ≤ pricePerMile y :=
  claim_c1_amended [⟨1, 100, none⟩] [⟨1, 100, some 10⟩, ⟨2, 200, some 100⟩]
    ⟨1, 100, some 10⟩ [⟨2, 200, some 100⟩] (by decide) (by decide)

/-- Claim C2: the average price per mile is null exactly when no listing
has positive mileage, and otherwise (for positive prices, which is the
engine's input contract) it is the arithmetic mean of the per-listing
price/mileage ratios over the qualifying listings, rounded to 2 decimal
places. -/
theorem claim_c2 (ls1 ls2 : List Listing) (q0 : Listing) (qrest : List Listing)
    (hq1 : ls1.filter qualifies = [])
    (hpos : ∀ l ∈ ls2, 0 < l.price)
    (hq2 : ls2.filter qualifies = q0 :: qrest) :
    (compare_car_listings ls1).avg_price_per_mile = none ∧
    (compare_car_listings ls2).avg_price_per_mile =
      some (round2 (((q0 :: qrest).map pricePerMile).sum /
        (((q0 :: qrest).length : ℕ) : ℚ))) := by
  constructor
  · cases ls1 with
    | nil => rfl
    | cons l0 rest =>
      simp only [compare_car_listings, hq1]
      rfl
  · cases ls2 with
    | nil =>
      rw [List.filter_nil] at hq2
      cases hq2
    | cons l0 rest =>
      have hv := appm_pos (l0 :: rest) hpos q0 qrest hq2
      simp only [compare_car_listings, hq2, List.isEmpty_cons, Bool.false_eq_true, if_false]
      rw [if_neg (ne_of_gt hv)]

/-- Claim C2 witness: a list with no qualifying listing, and a singleton
list whose average ratio is 25000 / 50000. -/
theorem claim_c2_witness :
    (compare_car_listings [(⟨1, 30000, none⟩ : Listing)]).avg_price_per_mile = none ∧
    (compare_car_listings [(⟨1, 25000, some 50000⟩ : Listing)]).avg_price_per_mile =
      some (round2 ((([(⟨1, 25000, some 50000⟩ : Listing)]).map pricePerMile).sum /
        ((([(⟨1, 25000, some 50000⟩ : Listing)]).length : ℕ) : ℚ))) :=
  claim_c2 [⟨1, 30000, none⟩] [⟨1, 25000, some 50000⟩] ⟨1, 25000, some 50000⟩ []
    rfl (by decide) rfl

/-- Claim C4: count is the length of the input (0 when empty); min, max
and average price are null on the empty input and otherwise the minimum,
maximum and arithmetic mean of all prices, each rounded to 2 decimal
places. -/
theorem claim_c4 (l0 : Listing) (rest : List Listing) :
    (compare_car_listings []).count = 0 ∧
    (compare_car_listings (l0 :: rest)).count = (l0 :: rest).length ∧
    (compare_car_listings []).min_price = none ∧
    (compare_car_listings []).max_price = none ∧
    (compare_car_listings []).avg_price = none ∧
    (∃ m, m ∈ (l0 :: rest).map (fun l => l.price) ∧
      (∀ p ∈ (l0 :: rest).map (fun l => l.price), m ≤ p) ∧
      (compare_car_listings (l0 :: rest)).min_price = some (round2 m)) ∧
    (∃ M, M ∈ (l0 :: rest).map (fun l => l.price) ∧
      (∀ p ∈ (l0 :: rest).map (fun l => l.price), p ≤ M) ∧
      (compare_car_listings (l0 :: rest)).max_price = some (round2 M)) ∧
    (compare_car_listings (l0 :: rest)).avg_price =
      some (round2 (((l0 :: rest).map (fun l => l.price)).sum /
        (((l0 :: rest).length : ℕ) : ℚ))) := by
  obtain ⟨hminmem, hminbd⟩ := foldl_min_price_spec rest l0.price
  obtain ⟨hmaxmem, hmaxbd⟩ := foldl_max_price_spec rest l0.price
  refine ⟨rfl, compare_count_cons l0 rest, rfl, rfl, rfl, ?_, ?_,
    compare_avg_price_cons l0 rest⟩
  · refine ⟨rest.foldl (fun (a : ℚ) (l : Listing) => min a l.price) l0.price, ?_, ?_,
      compare_min_price_cons l0 rest⟩
    · rw [List.map_cons]; exact hminmem
    · intro p hp
      rw [List.map_cons] at hp
      exact hminbd p hp
  · refine ⟨rest.foldl (fun (a : ℚ) (l : Listing) => max a l.price) l0.price, ?_, ?_,
      compare_max_price_cons l0 rest⟩
    · rw [List.map_cons]; exact hmaxmem
    · intro p hp
      rw [List.map_cons] at hp
      exact hmaxbd p hp

/-- Claim C4 witness at a concrete two-listing input. -/
theorem claim_c4_witness :
    (compare_car_listings []).count = 0 ∧
    (compare_car_listings [(⟨1, 30000, none⟩ : Listing), ⟨2, 32000, none⟩]).count =
      ([(⟨1, 30000, none⟩ : Listing), ⟨2, 32000, none⟩]).length ∧
    (compare_car_listings []).min_price = none ∧
    (compare_car_listings []).max_price = none ∧
    (compare_car_listings []).avg_price = none ∧
    (∃ m, m ∈ ([(⟨1, 30000, none⟩ : Listing), ⟨2, 32000, none⟩]).map (fun l => l.price) ∧
      (∀ p ∈ ([(⟨1, 30000, none⟩ : Listing), ⟨2, 32000, none⟩]).map (fun l => l.price), m ≤ p) ∧
      (compare_car_listings [(⟨1, 30000, none⟩ : Listing), ⟨2, 32000, none⟩]).min_price =
        some (round2 m)) ∧
    (∃ M, M ∈ ([(⟨1, 30000, none⟩ : Listing), ⟨2, 32000, none⟩]).map (fun l => l.price) ∧
      (∀ p ∈ ([(⟨1, 30000, none⟩ : Listing), ⟨2, 32000, none⟩]).map (fun l => l.price), p ≤ M) ∧
      (compare_car_listings [(⟨1, 30000, none⟩ : Listing), ⟨2, 32000, none⟩]).max_price =
        some (round2 M)) ∧
    (compare_car_listings [(⟨1, 30000, none⟩ : Listing), ⟨2, 32000, none⟩]).avg_price =
      some (round2 ((([(⟨1, 30000, none⟩ : Listing), ⟨2, 32000, none⟩]).map
        (fun l => l.price)).sum /
        ((([(⟨1, 30000, none⟩ : Listing), ⟨2, 32000, none⟩]).length : ℕ) : ℚ))) :=
  claim_c4 ⟨1, 30000, none⟩ [⟨2, 32000, none⟩]

/-- Claim C6: the engine never divides by zero (every qualifying listing
has mileage some m with 0 < m), a zero mileage fails qualification
exactly like a null mileage, and nulling out zero mileages changes
neither the average price per mile of the endpoint nor any field of the
test helper (in particular not its best-deal selection). -/
theorem claim_c6 (ls : List Listing) :
    (∀ i p, qualifies ⟨i, p, some 0⟩ = false ∧ qualifies ⟨i, p, none⟩ = false) ∧
    (∀ l ∈ ls.filter qualifies, ∃ m, l.mileage = some m ∧ 0 < m) ∧
    (compare_car_listings (ls.map zeroMileageToNone)).avg_price_per_mile =
      (compare_car_listings ls).avg_price_per_mile ∧
    compute_comparison_stats (ls.map zeroMileageToNone) = compute_comparison_stats ls := by
  refine ⟨fun i p => ⟨rfl, rfl⟩, ?_, compare_appm_map_zeroMileageToNone ls,
    compute_comparison_stats_map_zeroMileageToNone ls⟩
  intro l hl
  exact (qualifies_iff l).mp (List.of_mem_filter hl)

/-- Claim C6 witness at the zero-mileage input of the specification. -/
theorem claim_c6_witness :
    (∀ i p, qualifies ⟨i, p, some 0⟩ = false ∧ qualifies ⟨i, p, none⟩ = false) ∧
    (∀ l ∈ ([(⟨1, 35000, some 0⟩ : Listing), ⟨2, 28000, some 40000⟩]).filter qualifies,
      ∃ m, l.mileage = some m ∧ 0 < m) ∧
    (compare_car_listings
        (([(⟨1, 35000, some 0⟩ : Listing), ⟨2, 28000, some 40000⟩]).map
          zeroMileageToNone)).avg_price_per_mile =
      (compare_car_listings
        [(⟨1, 35000, some 0⟩ : Listing), ⟨2, 28000, some 40000⟩]).avg_price_per_mile ∧
    compute_comparison_stats
        (([(⟨1, 35000, some 0⟩ : Listing), ⟨2, 28000, some 40000⟩]).map zeroMileageToNone) =
      compute_comparison_stats [(⟨1, 35000, some 0⟩ : Listing), ⟨2, 28000, some 40000⟩] :=
  claim_c6 [⟨1, 35000, some 0⟩, ⟨2, 28000, some 40000⟩]

/-- Claim C9: on any non-empty input the endpoint always returns a
listing id (never null): the id of a listing r with globally minimal
price such that, among listings sharing that minimal price, one with
null mileage is never chosen over one with numeric mileage (null is
ordered as infinity), and every listing placed before r in the input has
a strictly greater sort key, so r is the earliest listing attaining the
minimal (price, mileage) key: the stable-sort tie-break. -/
theorem claim_c9 (l0 : Listing) (rest : List Listing) :
    ∃ r pre post,
      (compare_car_listings (l0 :: rest)).best_deal_listing_id = some r.id ∧
      l0 :: rest = pre ++ r :: post ∧
      (∀ y ∈ l0 :: rest, r.price ≤ y.price) ∧
      (∀ y ∈ l0 :: rest, y.price = r.price → y.mileage ≠ none → r.mileage ≠ none) ∧
      (∀ y ∈ pre, sortKey r < sortKey y) := by
  obtain ⟨pre, post, hsplit, hpre, hpost, hle⟩ := foldMin_decomp sortKey rest l0
  have hmin : ∀ y ∈ l0 :: rest, sortKey (foldMin sortKey l0 rest) ≤ sortKey y :=
    (foldMin_spec sortKey l0 rest).2
  refine ⟨foldMin sortKey l0 rest, pre, post, compare_best_cons l0 rest, hsplit, ?_, ?_, hpre⟩
  · intro y hy
    exact price_le_of_sortKey_le _ y (hmin y hy)
  · intro y hy hp hm
    exact mileage_of_sortKey_le _ y (hmin y hy) hp hm

/-- Claim C9 witness: two listings sharing no price tie; the cheaper one
(with null mileage) is returned. -/
theorem claim_c9_witness :
    ∃ r pre post,
      (compare_car_listings [(⟨1, 100, some 5⟩ : Listing), ⟨2, 90, none⟩]).best_deal_listing_id =
        some r.id ∧
      [(⟨1, 100, some 5⟩ : Listing), ⟨2, 90, none⟩] = pre ++ r :: post ∧
      (∀ y ∈ [(⟨1, 100, some 5⟩ : Listing), ⟨2, 90, none⟩], r.price ≤ y.price) ∧
      (∀ y ∈ [(⟨1, 100, some 5⟩ : Listing), ⟨2, 90, none⟩],
        y.price = r.price → y.mileage ≠ none → r.mileage ≠ none) ∧
      (∀ y ∈ pre, sortKey r < sortKey y) :=
  claim_c9 ⟨1, 100, some 5⟩ [⟨2, 90, none⟩]

/-- Claim C10: the listing validators (create and update) reject a price
above 10,000,000 and a mileage above 1,000,000, and an accepted price is
returned rounded to 2 decimal places (so stored prices always have at
most 2 decimals). -/
theorem claim_c10 (p1 p2 : ℚ) (m : ℤ)
    (h1 : 10000000 < p1) (h2 : 1000000 < m) (h3 : 0 < p2) (h4 : p2 ≤ 10000000) :
    validate_price p1 = Except.error "Price cannot exceed $10,000,000" ∧
    validate_price_update (some p1) = Except.error "Price cannot exceed $10,000,000" ∧
    validate_mileage (some m) = Except.error "Mileage cannot exceed 1,000,000 miles" ∧
    validate_mileage_update (some m) = Except.error "Mileage cannot exceed 1,000,000 miles" ∧
    validate_price p2 = Except.ok (round2 p2) ∧
    validate_price_update (some p2) = Except.ok (some (round2 p2)) ∧
    ∃ n : ℤ, round2 p2 = (n : ℚ) / 100 := by
  have hp1pos : ¬ p1 ≤ 0 := not_le.mpr (lt_trans (by norm_num) h1)
  have hmnonneg : ¬ m < 0 := not_lt.mpr (le_of_lt (lt_trans (by norm_num) h2))
  refine ⟨?_, ?_, ?_, ?_, ?_, ?_, ⟨roundHalfEven (100 * p2), rfl⟩⟩
  · unfold validate_price
    rw [if_neg hp1pos, if_pos h1]
  · simp only [validate_price_update]
    rw [if_neg hp1pos, if_pos h1]
  · simp only [validate_mileage]
    rw [if_neg hmnonneg, if_pos h2]
  · simp only [validate_mileage_update]
    rw [if_neg hmnonneg, if_pos h2]
  · unfold validate_price
    rw [if_neg (not_le.mpr h3), if_neg (not_lt.mpr h4)]
  · simp only [validate_price_update]
    rw [if_neg (not_le.mpr h3), if_neg (not_lt.mpr h4)]

/-- Claim C10 witness at concrete prices and mileage. -/
theorem claim_c10_witness :
    validate_price 20000000 = Except.error "Price cannot exceed $10,000,000" ∧
    validate_price_update (some 20000000) = Except.error "Price cannot exceed $10,000,000" ∧
    validate_mileage (some 2000000) = Except.error "Mileage cannot exceed 1,000,000 miles" ∧
    validate_mileage_update (some 2000000) =
      Except.error "Mileage cannot exceed 1,000,000 miles" ∧
    validate_price 25000 = Except.ok (round2 25000) ∧
    validate_price_update (some 25000) = Except.ok (some (round2 25000)) ∧
    (∃ n : ℤ, round2 25000 = (n : ℚ) / 100) :=
  claim_c10 20000000 25000 2000000 (by norm_num) (by norm_num) (by norm_num) (by norm_num)
